import Mathlib

/-!
Verification of the ImageGrid pipeline
(`orangecontrib/prototypes/image_grid.py`).

The pipeline places 2D-projected, span-normalized data points onto a regular
grid by solving a linear assignment problem.  Real coordinates are embedded
as rationals (`ℚ`); NumPy's `nan` results (e.g. `scipy.stats.kurtosis` on
degenerate data, whose cast through `np.int32` is an invalid/undefined
conversion) are embedded as `Option.none`; a Python exception (failed
`assert`, invalid downstream computation) is an `Except.error` that carries
the object state at the moment of the raise.
-/

namespace ImageGrid

/-- Squared Euclidean distance between two 2D points
(the `"sqeuclidean"` metric `cdist` uses in `_get_assignments`). -/
def sqdist (a b : ℚ × ℚ) : ℚ := (a.1 - b.1) ^ 2 + (a.2 - b.2) ^ 2

/-- Embedding of `int(np.ceil(np.sqrt(m)))` at `_get_grid_size` line 116: the least `k`
with `k * k ≥ m`. -/
def sqrSize (m : ℕ) : ℕ :=
  let r := Nat.sqrt m
  if r * r = m then r else r + 1

/-- Embedding of `scipy.stats.kurtosis` on one axis (defaults `fisher=True`, `bias=True`):
the biased excess kurtosis `m4 / m2^2 - 3` with `mj` the j-th central sample
moment.  On an empty sample, or when `m2 = 0` (all values equal, so `0/0`),
scipy yields `nan`, embedded as `none`. -/
def kurtosis (xs : List ℚ) : Option ℚ :=
  if xs.length = 0 then none
  else
    let n : ℚ := (xs.length : ℚ)
    let μ : ℚ := xs.sum / n
    let m2 : ℚ := (xs.map (fun x => (x - μ) ^ 2)).sum / n
    let m4 : ℚ := (xs.map (fun x => (x - μ) ^ 4)).sum / n
    if m2 = 0 then none else some (m4 / m2 ^ 2 - 3)

/-- Embedding of `_get_grid_size(data, use_default_square)` (lines 96-125): start from the
minimal square `sqr_size = ceil(sqrt(len(data)))`; unless
`use_default_square`, add per axis the bias
`np.int32(np.abs(np.ceil(kurt * 2)))`, i.e. the absolute value of the
ceiling of twice the axis kurtosis.  A `nan` kurtosis makes the
`np.int32` cast invalid, embedded as `none`. -/
def get_grid_size (data : List (ℚ × ℚ)) (use_default_square : Bool) :
    Option (ℕ × ℕ) :=
  let s := sqrSize data.length
  if use_default_square then some (s, s)
  else
    match kurtosis (data.map Prod.fst), kurtosis (data.map Prod.snd) with
    | some kx, some ky =>
        some (s + (Int.ceil (kx * 2)).natAbs, s + (Int.ceil (ky * 2)).natAbs)
    | _, _ => none

/-- The per-axis grid bias exactly as the spec's sentence states it:
`ceil(|kurtosis| * 2)`, the ceiling taken of the absolute value of twice the
kurtosis.  Written from the spec's words, for comparison with the code's
`np.int32(np.abs(np.ceil(kurt * 2)))`, which takes the absolute value after
the ceiling. -/
def specBias (k : ℚ) : ℤ := Int.ceil (|k| * 2)

/-- The grid lattice of `_get_assignments` lines 163-164:
`np.dstack(np.meshgrid(linspace(0,1,size_x,endpoint=False),
linspace(0,1,size_y,endpoint=False))).reshape(-1,2)`.
`meshgrid` with default `"xy"` indexing followed by the row-major reshape
enumerates, for each `row < size_y` in order, all `col < size_x` in order,
producing the coordinate `(col/size_x, row/size_y)`. -/
def lattice (sx sy : ℕ) : List (ℚ × ℚ) :=
  (List.range sy).flatMap fun (row : ℕ) =>
    (List.range sx).map fun (col : ℕ) =>
      ((col : ℚ) / (sx : ℚ), (row : ℚ) / (sy : ℚ))

/-- All length-`m` lists with entries `< cells` (all ways to place each of
`m` points on some cell, repetitions allowed). -/
def allAssign : ℕ → ℕ → List (List ℕ)
  | 0, _ => [[]]
  | m + 1, cells =>
      (List.range cells).flatMap fun c => (allAssign m cells).map fun f => c :: f

/-- All valid one-to-one matchings of `m` points to distinct cells:
entry `j` is the cell of point `j`. -/
def allInjections (m cells : ℕ) : List (List ℕ) :=
  (allAssign m cells).filter fun f => decide f.Nodup

/-- Total squared-Euclidean cost of matching point `j` to cell `f j`. -/
def matchCost (grid pts : List (ℚ × ℚ)) (f : List ℕ) : ℚ :=
  ((f.zip pts).map (fun cp => sqdist (grid.getD cp.1 (0, 0)) cp.2)).sum

/-- First element of minimal cost in a list (deterministic tie-break). -/
def pickMinBy {α : Type} (cost : α → ℚ) : List α → Option α
  | [] => none
  | f :: fs =>
      some (fs.foldl (fun best g => if cost g < cost best then g else best) f)

/-- The per-cell index array reconstructed from a points→cells matching
`f`: cell `c` holds the unique `j` with `f j = c`, and the sentinel `-1`
when no point is matched to `c` (lapjv's `res[1]`). -/
def gridIndicesOf (cells : ℕ) (f : List ℕ) : List ℤ :=
  (List.range cells).map fun c => if c ∈ f then (f.indexOf c : ℤ) else -1

/-- Modelled from the spec: the `lap.lapjv` solver (an external library, its
source is not part of this repository) invoked with `extend_cost=True` on the
`cells × points` cost matrix.  Per the spec (§4.3) it returns the globally
minimal-cost one-to-one matching of the points to distinct cells — the
rectangular case handled by infinite-cost padding, unmatched cells marked
`-1` — as `(cost, per-cell point index array, per-point cell index array)`.
Embedded as an exact minimum over all valid matchings; when no matching
exists (`cells < points`), the solver fails (`none`). -/
def lapjvModel (grid pts : List (ℚ × ℚ)) (cells : ℕ) :
    Option (ℚ × List ℤ × List ℕ) :=
  match pickMinBy (matchCost grid pts) (allInjections pts.length cells) with
  | none => none
  | some f => some (matchCost grid pts f, gridIndicesOf cells f, f)

/-- Embedding of `_get_assignments(data)` (lines 146-177) for grid size `sx × sy`:
build the lattice, solve the assignment problem, and return the cost,
the per-cell indices `res[1]`, and `np.array([grid[i] for i in res[2]])`
(each point's matched normalized cell coordinate). -/
def get_assignments (pts : List (ℚ × ℚ)) (sx sy : ℕ) :
    Option (ℚ × List ℤ × List (ℚ × ℚ)) :=
  let grid := lattice sx sy
  match lapjvModel grid pts (sx * sy) with
  | none => none
  | some (c, x, y) => some (c, x, y.map fun i => grid.getD i (0, 0))

/-- The mutable fields of an `ImageGrid` object: the ingested payloads
(`self.data`), the normalized 2D points (`self.norm_data`), and the result
fields initialized in `__init__` line 14-15. -/
structure IGState (α : Type) where
  data : List α
  normData : List (ℚ × ℚ)
  size_x : ℕ := 0
  size_y : ℕ := 0
  cost : ℚ := 0
  grid_indices : List ℤ := []
  assignments : List (ℚ × ℚ) := []
  image_list : List (Option α) := []
deriving DecidableEq

/-- The object state right after `__init__`: result fields at their
defaults `0, 0, 0, [], [], []`. -/
def mkState {α : Type} (data : List α) (normData : List (ℚ × ℚ)) :
    IGState α :=
  { data := data, normData := normData }

/-- Embedding of `_grid_indices_to_image_list` (lines 179-197): the row-major list whose
slot for grid index `i` is `None` for the sentinel `-1` and the payload
`images[i]` otherwise. -/
def grid_indices_to_image_list {α : Type} (images : List α)
    (grid_indices : List ℤ) : List (Option α) :=
  grid_indices.map fun i => if i = -1 then none else images[i.toNat]?

/-- The sizing phase of `process` (lines 41-48).  When both sizes are
nonzero (Python truthiness of `size_x and size_y`), assert
`size_x * size_y >= len(self.data)` — a failure raises before any field is
written, so the error carries the unchanged state — and write the sizes;
otherwise compute them with
`_get_grid_size(self.norm_data, use_default_square=False)` (whose `nan`
failure on degenerate data is the `none`/error case). -/
def sizeStep {α : Type} (st : IGState α) (sx sy : ℕ) :
    Except (IGState α) (IGState α) :=
  if sx ≠ 0 ∧ sy ≠ 0 then
    if st.data.length ≤ sx * sy then
      .ok { st with size_x := sx, size_y := sy }
    else .error st
  else
    match get_grid_size st.normData false with
    | some (gx, gy) => .ok { st with size_x := gx, size_y := gy }
    | none => .error st

/-- Embedding of `process(size_x, size_y)` (lines 24-57): the sizing phase (`sizeStep`),
then `_get_assignments` on the normalized data, the rescale of each point's
normalized cell coordinate by `(size_x, size_y)` (lines 54-55), and the
materialization of the image list.  `Except.error s` carries the object
state `s` at the moment a Python exception is raised. -/
def process {α : Type} (st : IGState α) (sx sy : ℕ) :
    Except (IGState α) (IGState α) :=
  match sizeStep st sx sy with
  | .error s => .error s
  | .ok st1 =>
      match get_assignments st1.normData st1.size_x st1.size_y with
      | none => .error st1
      | some (c, gi, asg) =>
          let asg2 := asg.map fun p =>
            (p.1 * (st1.size_x : ℚ), p.2 * (st1.size_y : ℚ))
          .ok { st1 with
                cost := c, grid_indices := gi, assignments := asg2,
                image_list := grid_indices_to_image_list st1.data gi }

/-- A concrete two-payload instance used as evaluation sample: payloads
`10, 20` with normalized positions `(0,0)` and `(1/2,1/2)`. -/
def sampleState : IGState ℕ := mkState [10, 20] [(0, 0), (1/2, 1/2)]

/-- The object state `process(2, 1)` produces on `sampleState`. -/
def sampleResult : IGState ℕ :=
  { data := [10, 20], normData := [(0, 0), (1/2, 1/2)], size_x := 2,
    size_y := 1, cost := 1/4, grid_indices := [0, 1],
    assignments := [(0, 0), (1, 0)], image_list := [some 10, some 20] }

/-! ### Helper lemmas -/

/-- Flattening a nested row/column enumeration is a row-major map. -/
lemma flatMap_range_eq {α : Type} (h : ℕ → ℕ → α) (n m : ℕ) :
    (List.range n).flatMap (fun r => (List.range m).map (h r)) =
      (List.range (n * m)).map (fun k => h (k / m) (k % m)) := by
  induction n with
  | zero => simp
  | succ n ih =>
      rcases Nat.eq_zero_or_pos m with hm | hm
      · subst hm; simp
      · rw [List.range_succ, List.flatMap_append, ih, Nat.succ_mul,
          List.range_add, List.map_append, List.map_map]
        congr 1
        simp only [List.flatMap_cons, List.flatMap_nil, List.append_nil]
        refine List.map_congr_left fun k hk => ?_
        rw [List.mem_range] at hk
        have hdiv : (n * m + k) / m = n := by
          rw [Nat.mul_comm, Nat.mul_add_div hm, Nat.div_eq_of_lt hk, Nat.add_zero]
        have hmod : (n * m + k) % m = k := by
          rw [Nat.mul_add_mod', Nat.mod_eq_of_lt hk]
        simp [Function.comp, hdiv, hmod]

lemma lattice_eq_map (sx sy : ℕ) :
    lattice sx sy =
      (List.range (sy * sx)).map
        (fun k => (((k % sx : ℕ) : ℚ) / (sx : ℚ), ((k / sx : ℕ) : ℚ) / (sy : ℚ))) := by
  unfold lattice
  exact flatMap_range_eq (fun row col => ((col : ℚ) / (sx : ℚ), (row : ℚ) / (sy : ℚ))) sy sx

lemma length_lattice (sx sy : ℕ) : (lattice sx sy).length = sy * sx := by
  rw [lattice_eq_map]; simp

lemma lattice_getElem? {sx sy k : ℕ} (hk : k < sy * sx) :
    (lattice sx sy)[k]? =
      some (((k % sx : ℕ) : ℚ) / (sx : ℚ), ((k / sx : ℕ) : ℚ) / (sy : ℚ)) := by
  rw [lattice_eq_map]
  simp [List.getElem?_range hk]

lemma mem_allAssign {m cells : ℕ} {f : List ℕ} :
    f ∈ allAssign m cells ↔ f.length = m ∧ ∀ x ∈ f, x < cells := by
  induction m generalizing f with
  | zero =>
      cases f <;> simp [allAssign]
  | succ m ih =>
      cases f with
      | nil => simp [allAssign]
      | cons a g =>
          simp only [allAssign, List.mem_flatMap, List.mem_map, List.mem_range]
          constructor
          · rintro ⟨c, hc, g', hg', h⟩
            cases h
            rcases ih.mp hg' with ⟨hlen, hub⟩
            refine ⟨by simp [hlen], ?_⟩
            intro x hx
            rcases List.mem_cons.mp hx with h | h
            · exact h ▸ hc
            · exact hub x h
          · rintro ⟨hlen, hub⟩
            refine ⟨a, hub a (List.mem_cons_self a g), g, ?_, rfl⟩
            exact ih.mpr ⟨by simpa using hlen, fun x hx => hub x (List.mem_cons_of_mem a hx)⟩

lemma mem_allInjections {m cells : ℕ} {f : List ℕ} :
    f ∈ allInjections m cells ↔
      f.length = m ∧ (∀ x ∈ f, x < cells) ∧ f.Nodup := by
  simp only [allInjections, List.mem_filter, mem_allAssign, decide_eq_true_eq]
  tauto

/-- The foldl of `pickMinBy` returns the accumulator or a list element. -/
lemma foldlMin_mem {α : Type} (cost : α → ℚ) :
    ∀ (l : List α) (a : α),
      (l.foldl (fun best g => if cost g < cost best then g else best) a) = a ∨
        (l.foldl (fun best g => if cost g < cost best then g else best) a) ∈ l := by
  intro l
  induction l with
  | nil => intro a; exact Or.inl rfl
  | cons b t ih =>
      intro a
      simp only [List.foldl_cons]
      by_cases h : cost b < cost a
      · simp only [if_pos h]
        rcases ih b with h' | h'
        · exact Or.inr (by rw [h']; exact List.mem_cons_self b t)
        · exact Or.inr (List.mem_cons_of_mem b h')
      · simp only [if_neg h]
        rcases ih a with h' | h'
        · exact Or.inl h'
        · exact Or.inr (List.mem_cons_of_mem b h')

/-- The foldl of `pickMinBy` has cost at most that of the accumulator and of
every list element. -/
lemma foldlMin_le {α : Type} (cost : α → ℚ) :
    ∀ (l : List α) (a : α),
      cost (l.foldl (fun best g => if cost g < cost best then g else best) a) ≤ cost a ∧
        ∀ g ∈ l,
          cost (l.foldl (fun best g => if cost g < cost best then g else best) a) ≤ cost g := by
  intro l
  induction l with
  | nil => intro a; exact ⟨le_refl _, by simp⟩
  | cons b t ih =>
      intro a
      simp only [List.foldl_cons]
      by_cases h : cost b < cost a
      · rcases ih b with ⟨h1, h2⟩
        simp only [if_pos h]
        refine ⟨le_trans h1 (le_of_lt h), fun g hg => ?_⟩
        rcases List.mem_cons.mp hg with rfl | hg
        · exact h1
        · exact h2 g hg
      · rcases ih a with ⟨h1, h2⟩
        simp only [if_neg h]
        refine ⟨h1, fun g hg => ?_⟩
        rcases List.mem_cons.mp hg with rfl | hg
        · exact le_trans h1 (not_lt.mp h)
        · exact h2 g hg

lemma pickMinBy_spec {α : Type} {cost : α → ℚ} {l : List α} {f : α}
    (h : pickMinBy cost l = some f) : f ∈ l ∧ ∀ g ∈ l, cost f ≤ cost g := by
  cases l with
  | nil => simp [pickMinBy] at h
  | cons b t =>
      simp only [pickMinBy, Option.some.injEq] at h
      constructor
      · rw [← h]
        rcases foldlMin_mem cost t b with h' | h'
        · rw [h']; exact List.mem_cons_self b t
        · exact List.mem_cons_of_mem b h'
      · intro g hg
        rw [← h]
        rcases List.mem_cons.mp hg with hg | hg
        · rw [hg]; exact (foldlMin_le cost t b).1
        · exact (foldlMin_le cost t b).2 g hg

lemma gridIndicesOf_getElem? {cells : ℕ} (f : List ℕ) {c : ℕ} (hc : c < cells) :
    (gridIndicesOf cells f)[c]? =
      some (if c ∈ f then (f.indexOf c : ℤ) else -1) := by
  unfold gridIndicesOf
  simp [List.getElem?_range hc]

lemma length_gridIndicesOf (cells : ℕ) (f : List ℕ) :
    (gridIndicesOf cells f).length = cells := by
  simp [gridIndicesOf]

/-- Each point index occurs in exactly one cell of the per-cell array. -/
lemma count_gridIndicesOf {cells : ℕ} {f : List ℕ} (hnd : f.Nodup)
    (hub : ∀ x ∈ f, x < cells) {j : ℕ} (hj : j < f.length) :
    (gridIndicesOf cells f).count ((j : ℕ) : ℤ) = 1 := by
  have hv : f[j] ∈ f := List.getElem_mem hj
  unfold gridIndicesOf
  rw [List.count_eq_countP, List.countP_map]
  have hcong :
      ∀ c ∈ List.range cells,
        ((fun x => x == ((j : ℕ) : ℤ)) ∘ fun c =>
            if c ∈ f then (f.indexOf c : ℤ) else -1) c ↔ c == f[j] := by
    intro c _
    simp only [Function.comp, beq_iff_eq]
    by_cases hcf : c ∈ f
    · simp only [if_pos hcf, Int.natCast_inj]
      constructor
      · intro hidx
        subst hidx
        exact (List.getElem_indexOf (List.indexOf_lt_length.mpr hcf)).symm
      · intro hc
        rw [hc]
        exact List.indexOf_getElem hnd j hj
    · simp only [if_neg hcf]
      constructor
      · intro h
        exact absurd h (by omega)
      · intro hc
        exact absurd (hc ▸ hv) hcf
  rw [List.countP_congr hcong, ← List.count_eq_countP]
  exact List.count_eq_one_of_mem (List.nodup_range cells)
    (List.mem_range.mpr (hub _ hv))

/-- The cells of `range cells` carrying a point are exactly `f.length` many. -/
lemma countP_mem_range {cells : ℕ} {f : List ℕ} (hnd : f.Nodup)
    (hub : ∀ x ∈ f, x < cells) :
    (List.range cells).countP (fun c => decide (c ∈ f)) = f.length := by
  rw [List.countP_eq_length_filter]
  have hperm :
      ((List.range cells).filter (fun c => decide (c ∈ f))).Perm f := by
    apply List.perm_of_nodup_nodup_toFinset_eq
    · exact (List.nodup_range cells).filter _
    · exact hnd
    · ext x
      simp only [List.mem_toFinset, List.mem_filter, List.mem_range,
        decide_eq_true_eq]
      exact ⟨fun h => h.2, fun h => ⟨hub x h, h⟩⟩
  exact hperm.length_eq

/-- The sentinel `-1` occurs `cells - points` times. -/
lemma count_neg_one_gridIndicesOf {cells : ℕ} {f : List ℕ} (hnd : f.Nodup)
    (hub : ∀ x ∈ f, x < cells) :
    (gridIndicesOf cells f).count (-1 : ℤ) = cells - f.length := by
  unfold gridIndicesOf
  rw [List.count_eq_countP, List.countP_map]
  have hcong :
      ∀ c ∈ List.range cells,
        ((fun x => x == (-1 : ℤ)) ∘ fun c =>
            if c ∈ f then (f.indexOf c : ℤ) else -1) c ↔
          (fun c => !(decide (c ∈ f))) c := by
    intro c _
    simp only [Function.comp, beq_iff_eq, Bool.not_eq_true', decide_eq_false_iff_not]
    by_cases hcf : c ∈ f
    · simp only [if_pos hcf]
      constructor
      · intro h; exact absurd h (by omega)
      · intro h; exact absurd hcf h
    · simp [if_neg hcf, hcf]
  rw [List.countP_congr hcong]
  have := List.length_eq_countP_add_countP (p := fun c => decide (c ∈ f))
    (List.range cells)
  rw [List.length_range] at this
  have hcnt := countP_mem_range hnd hub
  have hnot :
      (List.range cells).countP (fun c => !(decide (c ∈ f))) =
        (List.range cells).countP (fun a => ¬(decide (a ∈ f))) := by
    apply List.countP_congr
    intro c _
    simp
  rw [hnot]
  omega

/-- Inversion of a successful `get_assignments`: the solver picked a minimal
valid matching `f` and the three results are derived from it. -/
lemma get_assignments_inv {pts : List (ℚ × ℚ)} {sx sy : ℕ} {c : ℚ}
    {gi : List ℤ} {asg : List (ℚ × ℚ)}
    (h : get_assignments pts sx sy = some (c, gi, asg)) :
    ∃ f, pickMinBy (matchCost (lattice sx sy) pts)
          (allInjections pts.length (sx * sy)) = some f ∧
        c = matchCost (lattice sx sy) pts f ∧
        gi = gridIndicesOf (sx * sy) f ∧
        asg = f.map (fun i => (lattice sx sy).getD i (0, 0)) := by
  unfold get_assignments lapjvModel at h
  rcases hp : pickMinBy (matchCost (lattice sx sy) pts)
      (allInjections pts.length (sx * sy)) with _ | f
  · simp only [hp] at h
    exact absurd h (by simp)
  · simp only [hp, Option.some.injEq, Prod.mk.injEq] at h
    exact ⟨f, rfl, h.1.symm, h.2.1.symm, h.2.2.symm⟩

/-! ### Claim theorems -/

/-- C1.  For every set of points and grid with `size_x*size_y ≥ M` cells on
which the solver succeeds, the solved assignment's total cost is ≤ the cost
of every valid one-to-one matching of the `M` points to distinct cells
(membership in `allInjections`); every point index `j < M` appears in exactly
one cell of the per-cell index array; and the number of cells carrying the
`-1` empty sentinel is `size_x*size_y - M`. -/
theorem get_assignments_minimal {pts : List (ℚ × ℚ)} {sx sy : ℕ} {c : ℚ}
    {gi : List ℤ} {asg : List (ℚ × ℚ)}
    (h : get_assignments pts sx sy = some (c, gi, asg)) :
    (∀ g ∈ allInjections pts.length (sx * sy),
        c ≤ matchCost (lattice sx sy) pts g) ∧
      (∀ j, j < pts.length → gi.count ((j : ℕ) : ℤ) = 1) ∧
      gi.count (-1 : ℤ) = sx * sy - pts.length := by
  rcases get_assignments_inv h with ⟨f, hpick, hc, hgi, -⟩
  rcases pickMinBy_spec hpick with ⟨hmem, hmin⟩
  rcases mem_allInjections.mp hmem with ⟨hlen, hub, hnd⟩
  refine ⟨?_, ?_, ?_⟩
  · intro g hg
    rw [hc]
    exact hmin g hg
  · intro j hj
    rw [hgi]
    exact count_gridIndicesOf hnd hub (hlen ▸ hj)
  · rw [hgi, count_neg_one_gridIndicesOf hnd hub, hlen]

/-- C1 witness: two points on a 2×1 grid; the solver returns the identity
matching of cost 1/4, cheaper than the only other matching (cost 1). -/
theorem get_assignments_minimal_witness :
    (∀ g ∈ allInjections ([((0 : ℚ), (0 : ℚ)), (1/2, 1/2)]).length (2 * 1),
        (1/4 : ℚ) ≤ matchCost (lattice 2 1) [(0, 0), (1/2, 1/2)] g) ∧
      (∀ j, j < ([((0 : ℚ), (0 : ℚ)), (1/2, 1/2)]).length →
          ([0, 1] : List ℤ).count ((j : ℕ) : ℤ) = 1) ∧
      ([0, 1] : List ℤ).count (-1 : ℤ) =
        2 * 1 - ([((0 : ℚ), (0 : ℚ)), (1/2, 1/2)]).length :=
  get_assignments_minimal
    (show get_assignments [(0, 0), (1/2, 1/2)] 2 1 =
        some (1/4, [0, 1], [(0, 0), (1/2, 0)]) from
      by norm_num [get_assignments, lapjvModel, allInjections, allAssign,
        List.range_succ, pickMinBy, matchCost, sqdist, lattice, gridIndicesOf])

/-- C5.  The lattice built by `_get_assignments` is the row-major enumeration
of the `size_x*size_y` cell coordinates: it has `size_x*size_y` entries and
the cell with linear index `row*size_x + col` carries the normalized
coordinate `(col/size_x, row/size_y)` — lower-left-corner placement with
pitch the reciprocal of each grid dimension. -/
theorem lattice_row_major {sx sy row col : ℕ} (hrow : row < sy)
    (hcol : col < sx) :
    (lattice sx sy).length = sx * sy ∧
      (lattice sx sy)[row * sx + col]? =
        some ((col : ℚ) / (sx : ℚ), (row : ℚ) / (sy : ℚ)) := by
  have hsx : 0 < sx := Nat.pos_of_ne_zero (by rintro rfl; exact Nat.not_lt_zero _ hcol)
  have hk : row * sx + col < sy * sx := by
    calc row * sx + col < row * sx + sx := by omega
    _ = (row + 1) * sx := by ring
    _ ≤ sy * sx := Nat.mul_le_mul_right sx hrow
  have hmod : (row * sx + col) % sx = col := by
    rw [Nat.mul_add_mod', Nat.mod_eq_of_lt hcol]
  have hdiv : (row * sx + col) / sx = row := by
    rw [Nat.mul_comm row sx, Nat.mul_add_div hsx, Nat.div_eq_of_lt hcol,
      Nat.add_zero]
  refine ⟨by rw [length_lattice, Nat.mul_comm], ?_⟩
  rw [lattice_getElem? hk, hmod, hdiv]

/-- C5 witness: on a 2×2 grid, cell `1*2+1` is at `(1/2, 1/2)`. -/
theorem lattice_row_major_witness :
    (1 : ℕ) < 2 ∧
      (lattice 2 2).length = 2 * 2 ∧
        (lattice 2 2)[1 * 2 + 1]? =
          some (((1 : ℕ) : ℚ) / ((2 : ℕ) : ℚ), ((1 : ℕ) : ℚ) / ((2 : ℕ) : ℚ)) :=
  ⟨by decide, (@lattice_row_major 2 2 1 1 (by decide) (by decide)).1,
    (@lattice_row_major 2 2 1 1 (by decide) (by decide)).2⟩

lemma le_sqrSize_mul_self (m : ℕ) : m ≤ sqrSize m * sqrSize m := by
  unfold sqrSize
  by_cases h : Nat.sqrt m * Nat.sqrt m = m
  · simp [h]
  · simp only [if_neg h]
    exact Nat.le_of_lt (Nat.lt_succ_sqrt m)

lemma one_le_sqrSize {m : ℕ} (hm : 1 ≤ m) : 1 ≤ sqrSize m := by
  unfold sqrSize
  by_cases h : Nat.sqrt m * Nat.sqrt m = m
  · simp only [if_pos h]
    rcases Nat.eq_zero_or_pos (Nat.sqrt m) with h0 | h0
    · rw [h0] at h; omega
    · exact h0
  · simp [if_neg h]

lemma sqrSize_min {m t : ℕ} (ht : t < sqrSize m) : t * t < m := by
  unfold sqrSize at ht
  by_cases h : Nat.sqrt m * Nat.sqrt m = m
  · rw [if_pos h] at ht
    calc t * t < Nat.sqrt m * Nat.sqrt m :=
          Nat.mul_lt_mul_of_lt_of_le ht (Nat.le_of_lt ht) (by omega)
    _ = m := h
  · rw [if_neg h] at ht
    have ht' : t ≤ Nat.sqrt m := Nat.lt_succ_iff.mp ht
    calc t * t ≤ Nat.sqrt m * Nat.sqrt m := Nat.mul_le_mul ht' ht'
    _ < m := Nat.lt_of_le_of_ne (Nat.sqrt_le m) h

/-- C2 counterexample: on zero points the sizer does not return a positive
pair.  On the default (kurtosis) path it has no defined value at all — the
kurtosis of an empty sample is `nan` and its `np.int32` cast invalid — and
on the square path it returns `(0, 0)`, violating `size_x ≥ 1`. -/
theorem get_grid_size_zero_points_cex :
    get_grid_size ([] : List (ℚ × ℚ)) false = none ∧
      get_grid_size ([] : List (ℚ × ℚ)) true = some (0, 0) := by
  constructor <;> norm_num [get_grid_size, kurtosis, sqrSize]

/-- C2 (amended).  For every input of `M ≥ 1` points on which the sizer
returns at all (on the default path this needs the per-axis kurtosis to be
defined, hence `M ≥ 2` and nonconstant axes), the returned pair satisfies
`size_x * size_y ≥ M`, `size_x ≥ 1` and `size_y ≥ 1`. -/
theorem get_grid_size_bounds {data : List (ℚ × ℚ)} {u : Bool} {sx sy : ℕ}
    (hM : 1 ≤ data.length) (h : get_grid_size data u = some (sx, sy)) :
    data.length ≤ sx * sy ∧ 1 ≤ sx ∧ 1 ≤ sy := by
  have hbase :
      ∃ bx bly : ℕ,
        sx = sqrSize data.length + bx ∧ sy = sqrSize data.length + bly := by
    unfold get_grid_size at h
    cases u with
    | true =>
        simp only [if_true, Option.some.injEq, Prod.mk.injEq] at h
        exact ⟨0, 0, h.1.symm.trans (Nat.add_zero _).symm,
          h.2.symm.trans (Nat.add_zero _).symm⟩
    | false =>
        simp only [Bool.false_eq_true, if_false] at h
        rcases hkx : kurtosis (data.map Prod.fst) with _ | kx <;>
          rcases hky : kurtosis (data.map Prod.snd) with _ | ky <;>
            simp only [hkx, hky] at h
        · exact absurd h (by simp)
        · exact absurd h (by simp)
        · exact absurd h (by simp)
        · simp only [Option.some.injEq, Prod.mk.injEq] at h
          exact ⟨(Int.ceil (kx * 2)).natAbs, (Int.ceil (ky * 2)).natAbs,
            h.1.symm, h.2.symm⟩
  rcases hbase with ⟨bx, bly, hx, hy⟩
  have hs1 : 1 ≤ sqrSize data.length := one_le_sqrSize hM
  refine ⟨?_, by omega, by omega⟩
  calc data.length ≤ sqrSize data.length * sqrSize data.length :=
        le_sqrSize_mul_self _
  _ ≤ sx * sy := by
      rw [hx, hy]
      exact Nat.mul_le_mul (Nat.le_add_right _ _) (Nat.le_add_right _ _)

/-- C2 witness: two points `(0,0), (1,1)`; both axes have kurtosis `-2`, so
the sizer returns `(6, 6)`, and `2 ≤ 36`, `1 ≤ 6`. -/
theorem get_grid_size_bounds_witness :
    1 ≤ ([((0 : ℚ), (0 : ℚ)), (1, 1)]).length ∧
      ([((0 : ℚ), (0 : ℚ)), (1, 1)]).length ≤ 6 * 6 ∧ 1 ≤ 6 ∧ 1 ≤ 6 :=
  ⟨by decide,
    get_grid_size_bounds (by decide)
      (show get_grid_size [(0, 0), (1, 1)] false = some (6, 6) from by
        norm_num [get_grid_size, kurtosis, sqrSize]
        have h4 : ⌈(-4 : ℚ)⌉ = -4 := by rw [Int.ceil_eq_iff]; norm_num
        rw [h4]
        rfl)⟩

/-- C4 counterexample: four points whose axes are `[0,0,0,1]` have kurtosis
`-2/3`.  The code's bias is `|ceil(-4/3)| = 1`, giving grid `(3,3)`; the
claim's formula `ceil(|kurtosis|*2) = ceil(4/3) = 2` would give `(4,4)`. -/
theorem get_grid_size_bias_cex :
    kurtosis [(0 : ℚ), 0, 0, 1] = some (-2/3) ∧
      get_grid_size [((0 : ℚ), (0 : ℚ)), (0, 0), (0, 0), (1, 1)] false =
        some (3, 3) ∧
      sqrSize 4 + (specBias (-2/3)).toNat = 4 ∧ (3 : ℕ) ≠ 4 := by
  have hceil : ⌈-((4 : ℚ)/3)⌉ = -1 := by rw [Int.ceil_eq_iff]; norm_num
  have hceil' : ⌈(4 : ℚ)/3⌉ = 2 := by rw [Int.ceil_eq_iff]; norm_num
  refine ⟨by norm_num [kurtosis], ?_, ?_, by decide⟩
  · norm_num [get_grid_size, kurtosis, sqrSize]
    rw [hceil]
    rfl
  · norm_num [specBias, sqrSize]
    have h23 : |(2 : ℚ)/3| * 2 = 4/3 := by
      rw [abs_of_nonneg (by norm_num)]
      norm_num
    rw [h23, hceil']
    rfl

/-- C4 (amended).  When the per-axis kurtosis is defined, the sizer adds to
the base `ceil(sqrt(M))`, per axis, the always-nonnegative integer bias
`|ceil(kurtosis * 2)|` — absolute value taken of the ceiling of twice the
kurtosis (not, as the claim stated, the ceiling of the absolute value). -/
theorem get_grid_size_bias_formula {data : List (ℚ × ℚ)} {kx ky : ℚ}
    (hx : kurtosis (data.map Prod.fst) = some kx)
    (hy : kurtosis (data.map Prod.snd) = some ky) :
    get_grid_size data false =
      some (sqrSize data.length + (Int.ceil (kx * 2)).natAbs,
        sqrSize data.length + (Int.ceil (ky * 2)).natAbs) ∧
      sqrSize data.length ≤ sqrSize data.length + (Int.ceil (kx * 2)).natAbs ∧
      sqrSize data.length ≤ sqrSize data.length + (Int.ceil (ky * 2)).natAbs := by
  refine ⟨?_, Nat.le_add_right _ _, Nat.le_add_right _ _⟩
  unfold get_grid_size
  simp [hx, hy]

/-- C4 witness: the amended formula evaluated on the four points of the
counterexample. -/
theorem get_grid_size_bias_formula_witness :
    get_grid_size [((0 : ℚ), (0 : ℚ)), (0, 0), (0, 0), (1, 1)] false =
      some
        (sqrSize ([((0 : ℚ), (0 : ℚ)), (0, 0), (0, 0), (1, 1)]).length +
            (Int.ceil ((-2/3 : ℚ) * 2)).natAbs,
          sqrSize ([((0 : ℚ), (0 : ℚ)), (0, 0), (0, 0), (1, 1)]).length +
            (Int.ceil ((-2/3 : ℚ) * 2)).natAbs) :=
  (@get_grid_size_bias_formula [(0, 0), (0, 0), (0, 0), (1, 1)] (-2/3) (-2/3)
    (by norm_num [kurtosis]) (by norm_num [kurtosis])).1

/-- C8 (code bug).  With a single point the sizer does not fall back to the
minimal square: it still invokes the kurtosis computation, whose second
moment is zero, so scipy returns `nan` and the subsequent `np.int32` cast
has no defined value — the sizer produces no valid result at all. -/
theorem get_grid_size_single_point_nan :
    kurtosis [(1 : ℚ)/2] = none ∧
      get_grid_size [((1 : ℚ)/2, (1 : ℚ)/2)] false = none := by
  constructor <;> norm_num [get_grid_size, kurtosis]

/-- C9.  The sizer recognizes the `use_default_square` flag; when it is true
the kurtosis bias is skipped (the result is defined even where kurtosis is
not) and the minimal square `(ceil(sqrt(M)), ceil(sqrt(M)))` is returned:
it holds all `M` points and no smaller square does. -/
theorem get_grid_size_default_square (data : List (ℚ × ℚ)) :
    get_grid_size data true =
        some (sqrSize data.length, sqrSize data.length) ∧
      data.length ≤ sqrSize data.length * sqrSize data.length ∧
      ∀ t : ℕ, t < sqrSize data.length → t * t < data.length :=
  ⟨by simp [get_grid_size], le_sqrSize_mul_self _, fun _ ht => sqrSize_min ht⟩

/-- C3.  When the caller passes explicit nonzero sizes with
`size_x * size_y < N`, `process` raises immediately (the `assert` at line
43) and the error state is exactly the pre-call state: every result field
(`size_x, size_y, cost, grid_indices, assignments, image_list`) retains its
prior value, and no partial result is produced. -/
theorem process_precondition_error {α : Type} (st : IGState α) {sx sy : ℕ}
    (hx : sx ≠ 0) (hy : sy ≠ 0) (hlt : sx * sy < st.data.length) :
    process st sx sy = .error st := by
  unfold process sizeStep
  rw [if_pos ⟨hx, hy⟩, if_neg (Nat.not_le.mpr hlt)]

/-- C3 witness: a 1×1 grid requested for 2 points errors with the state
unchanged. -/
theorem process_precondition_error_witness :
    (1 : ℕ) ≠ 0 ∧ 1 * 1 < (mkState [10, 20] [((0 : ℚ), (0 : ℚ)), (1, 1)]).data.length ∧
      process (mkState [10, 20] [((0 : ℚ), (0 : ℚ)), (1, 1)]) 1 1 =
        .error (mkState [10, 20] [((0 : ℚ), (0 : ℚ)), (1, 1)]) :=
  ⟨by decide, by decide,
    process_precondition_error (mkState [10, 20] [(0, 0), (1, 1)])
      (by decide) (by decide) (by decide)⟩

/-- C10.  When at least one of the explicit sizes is `0` (the default),
Python's `size_x and size_y` is falsy, so both explicit sizes are ignored —
no `size_x * size_y ≥ N` check happens even if the other size is positive —
and the call behaves exactly as the fully-automatic `process(0, 0)`. -/
theorem process_zero_size_auto {α : Type} (st : IGState α) (sx sy : ℕ)
    (h : sx = 0 ∨ sy = 0) :
    process st sx sy = process st 0 0 := by
  rcases h with rfl | rfl
  · unfold process sizeStep
    rw [if_neg (by simp), if_neg (by simp)]
  · unfold process sizeStep
    rw [if_neg (by simp), if_neg (by simp)]

/-- C10 witness: `size_x=3, size_y=0` on one point behaves as `process(0,0)`
(no precondition check, automatic sizing). -/
theorem process_zero_size_auto_witness :
    ((3 : ℕ) = 0 ∨ (0 : ℕ) = 0) ∧
      process (mkState [7] [((1 : ℚ)/2, (1 : ℚ)/2)]) 3 0 =
        process (mkState [7] [((1 : ℚ)/2, (1 : ℚ)/2)]) 0 0 :=
  ⟨Or.inr rfl,
    process_zero_size_auto (mkState [7] [((1 : ℚ)/2, (1 : ℚ)/2)]) 3 0
      (Or.inr rfl)⟩

/-- C7 (code bug).  On zero data points with the default sizes, `process`
does not succeed with an all-empty zero-cost grid: the automatic sizing path
computes the kurtosis of an empty sample (`nan`, invalid `np.int32` cast)
and the call fails. -/
theorem process_empty_input_error :
    process (mkState ([] : List ℕ) []) 0 0 = .error (mkState [] []) ∧
      get_grid_size ([] : List (ℚ × ℚ)) false = none :=
  ⟨rfl, rfl⟩

lemma sizeStep_ok_inv {α : Type} {st st1 : IGState α} {sx sy : ℕ}
    (h : sizeStep st sx sy = .ok st1) :
    st1.data = st.data ∧ st1.normData = st.normData := by
  unfold sizeStep at h
  split at h
  · split at h
    · cases h; exact ⟨rfl, rfl⟩
    · cases h
  · rcases hg : get_grid_size st.normData false with _ | ⟨gx, gy⟩
    · rw [hg] at h; cases h
    · rw [hg] at h; cases h; exact ⟨rfl, rfl⟩

/-- Inversion of a successful `process`: the solver ran on the original
normalized data with the final sizes, and the result fields are derived
from its output. -/
lemma process_ok_inv {α : Type} {st st' : IGState α} {sx sy : ℕ}
    (h : process st sx sy = .ok st') :
    ∃ c gi asg,
      get_assignments st.normData st'.size_x st'.size_y = some (c, gi, asg) ∧
        st'.data = st.data ∧ st'.normData = st.normData ∧
        st'.cost = c ∧ st'.grid_indices = gi ∧
        st'.assignments =
          asg.map (fun p => (p.1 * (st'.size_x : ℚ), p.2 * (st'.size_y : ℚ))) ∧
        st'.image_list = grid_indices_to_image_list st.data gi := by
  unfold process at h
  rcases hs : sizeStep st sx sy with s | st1
  · simp only [hs] at h; cases h
  · simp only [hs] at h
    rcases sizeStep_ok_inv hs with ⟨hd, hn⟩
    rcases hg : get_assignments st1.normData st1.size_x st1.size_y with
      _ | ⟨c, gi, asg⟩
    · simp only [hg] at h; cases h
    · simp only [hg] at h
      cases h
      rw [hn] at hg
      exact ⟨c, gi, asg, hg, hd, hn, rfl, rfl, rfl, by rw [hd]⟩

/-- C6.  After a successful `process`, every original index `i` is assigned
a non-empty cell: its reported coordinate pair is a pair of integers
`(col, row)`, looking up the materialized image list at the row-major linear
index `row * size_x + col` yields exactly the payload of index `i` (which
exists), and every cell whose index entry is the `-1` sentinel holds the
explicit empty marker `none`. -/
theorem process_roundtrip {α : Type} {st st' : IGState α} {sx sy i : ℕ}
    (hlen : st.normData.length = st.data.length)
    (hp : process st sx sy = .ok st') (hi : i < st.data.length) :
    ∃ col row : ℕ,
      st'.assignments[i]? = some ((col : ℚ), (row : ℚ)) ∧
        st'.image_list[row * st'.size_x + col]? = some st.data[i]? ∧
        (st.data[i]?).isSome = true ∧
        ∀ cl : ℕ, st'.grid_indices[cl]? = some (-1 : ℤ) →
          st'.image_list[cl]? = some none := by
  obtain ⟨c, gi, asg, hga, hd, hn, hc, hgi, hasg, himg⟩ := process_ok_inv hp
  obtain ⟨f, hpick, hceq, hgieq, hasgeq⟩ := get_assignments_inv hga
  obtain ⟨hmem, -⟩ := pickMinBy_spec hpick
  obtain ⟨hflen, hub, hnd⟩ := mem_allInjections.mp hmem
  have hif : i < f.length := by rw [hflen, hlen]; exact hi
  have hfmem : f[i] ∈ f := List.getElem_mem hif
  have hfib : f[i] < st'.size_x * st'.size_y := hub _ hfmem
  have hsx : 0 < st'.size_x := by
    rcases Nat.eq_zero_or_pos st'.size_x with h0 | h0
    · rw [h0, Nat.zero_mul] at hfib; exact absurd hfib (Nat.not_lt_zero _)
    · exact h0
  have hsy : 0 < st'.size_y := by
    rcases Nat.eq_zero_or_pos st'.size_y with h0 | h0
    · rw [h0, Nat.mul_zero] at hfib; exact absurd hfib (Nat.not_lt_zero _)
    · exact h0
  have hsxQ : (st'.size_x : ℚ) ≠ 0 := Nat.cast_ne_zero.mpr (Nat.pos_iff_ne_zero.mp hsx)
  have hsyQ : (st'.size_y : ℚ) ≠ 0 := Nat.cast_ne_zero.mpr (Nat.pos_iff_ne_zero.mp hsy)
  refine ⟨f[i] % st'.size_x, f[i] / st'.size_x, ?_, ?_, ?_, ?_⟩
  · -- the assignments entry is the integral pair (col, row)
    have hlat : (lattice st'.size_x st'.size_y)[(f[i] : ℕ)]? =
        some (((f[i] % st'.size_x : ℕ) : ℚ) / (st'.size_x : ℚ),
          ((f[i] / st'.size_x : ℕ) : ℚ) / (st'.size_y : ℚ)) :=
      lattice_getElem? (by rw [Nat.mul_comm]; exact hfib)
    rw [hasg, hasgeq]
    simp only [List.getElem?_map, List.getElem?_eq_getElem hif, Option.map_some',
      List.getD_eq_getElem?_getD, hlat, Option.getD_some, Option.some.injEq,
      Prod.mk.injEq]
    exact ⟨div_mul_cancel₀ _ hsxQ, div_mul_cancel₀ _ hsyQ⟩
  · -- looking the linear index up in the image list recovers payload i
    have hidx : f[i] / st'.size_x * st'.size_x + f[i] % st'.size_x = f[i] := by
      rw [Nat.mul_comm]; exact Nat.div_add_mod _ _
    have hgif : gi[(f[i] : ℕ)]? = some ((i : ℕ) : ℤ) := by
      rw [hgieq, gridIndicesOf_getElem? f hfib, if_pos hfmem,
        List.indexOf_getElem hnd i hif]
    rw [hidx, himg]
    unfold grid_indices_to_image_list
    rw [List.getElem?_map, hgif]
    simp only [Option.map_some', Option.some.injEq]
    rw [if_neg (by omega), Int.toNat_ofNat]
  · rw [List.getElem?_eq_getElem hi]
    rfl
  · -- sentinel cells materialize as the explicit empty marker
    intro cl hcl
    rw [hgi] at hcl
    rw [himg]
    unfold grid_indices_to_image_list
    rw [List.getElem?_map, hcl]
    simp

/-- C6 witness: the round trip evaluated for payload index 1 of the
two-point sample on a 2×1 grid. -/
theorem process_roundtrip_witness :
    sampleState.normData.length = sampleState.data.length ∧
      1 < sampleState.data.length ∧
      ∃ col row : ℕ,
        sampleResult.assignments[1]? = some ((col : ℚ), (row : ℚ)) ∧
          sampleResult.image_list[row * sampleResult.size_x + col]? =
            some sampleState.data[1]? ∧
          (sampleState.data[1]?).isSome = true ∧
          ∀ cl : ℕ, sampleResult.grid_indices[cl]? = some (-1 : ℤ) →
            sampleResult.image_list[cl]? = some none :=
  ⟨rfl, by decide,
    process_roundtrip rfl
      (show process sampleState 2 1 = .ok sampleResult from by
        norm_num [process, sizeStep, get_assignments, lapjvModel,
          allInjections, allAssign, pickMinBy, matchCost, sqdist, lattice,
          gridIndicesOf, grid_indices_to_image_list, mkState, sampleState,
          sampleResult, List.range_succ])
      (by decide)⟩

end ImageGrid
